import Mathlib

/-!
Shallow embedding of the RFM customer-segmentation core of
`src/1.1-ecommerce-analytics/src/rfm.py`, together with proofs about the
properties its specification states.

Modelling conventions:
* A dataframe is a `List` of row structures; vectorised column operations
  become pointwise operations on the rows.
* Order timestamps are whole-day numbers (proleptic Gregorian day ordinals,
  e.g. 2011-12-01 ↦ 734472); `pd.Timedelta(days=1)` is the integer `1` and
  `(snapshot - t.max()).days` is integer subtraction.  All dates in the
  program are whole days, so no sub-day rounding arises.
* `Quantity`, `UnitPrice`, `Revenue` and `Monetary` are modelled as `ℚ`
  (exact decimal arithmetic).
* A Python exception becomes the `Except.error` branch of a result; the
  `PyError` constructors record which concrete raise site fired.
-/

/-- One transaction line item (one row of the input dataframe).
`customerId` is `none` for a guest purchase (null `CustomerID`).
`revenue` is the `Revenue` column added by `load_transactions`
(`Quantity * UnitPrice`); rows fed straight to `compute_rfm` carry it as
an ordinary field. -/
structure Transaction where
  invoiceNo : String
  invoiceDate : Int
  customerId : Option Int
  quantity : ℚ
  unitPrice : ℚ
  revenue : ℚ
  deriving DecidableEq, Repr

/-- One row of the per-customer RFM table produced by `compute_rfm`. -/
structure CustomerMetrics where
  customerId : Int
  recency : Int
  frequency : Nat
  monetary : ℚ
  deriving DecidableEq, Repr

/-- A `CustomerMetrics` row plus the three ordinal scores and the composite
`RFM_Score` string added by `score_rfm`.  `R_Score` is computed in the code
as `bins - code` on Python ints, so it is an `Int`; `F_Score`/`M_Score` are
`code + 1` for a non-negative bin code, hence `Nat`. -/
structure CustomerScore extends CustomerMetrics where
  rScore : Int
  fScore : Nat
  mScore : Nat
  rfmScore : String
  deriving DecidableEq, Repr

/-- A `CustomerScore` row plus the `Segment` label added by `assign_segments`. -/
structure CustomerSegment extends CustomerScore where
  segment : String
  deriving DecidableEq, Repr

/-- The concrete raise sites of the Python code.
* `negativeRecency`: `assert (rfm["Recency"] >= 0).all(), "Found negative
  Recency"`.
* `frequencyNotPositive`: `assert (rfm["Frequency"] > 0).all()`.
* `monetaryNotPositive`: `assert (rfm["Monetary"] > 0).all()`.
* `nanRScore`/`nanFScore`/`nanMScore`: in `score_rfm`, `pd.qcut(...,
  duplicates="drop")` collapses all bin edges to a single value, every code
  becomes `NaN`, and `.astype(int)` raises `ValueError` for that column. -/
inductive PyError where
  | negativeRecency
  | frequencyNotPositive
  | monetaryNotPositive
  | nanRScore
  | nanFScore
  | nanMScore
  deriving DecidableEq, Repr

instance {ε α : Type _} [DecidableEq ε] [DecidableEq α] :
    DecidableEq (Except ε α) := fun x y =>
  match x, y with
  | .ok a, .ok b =>
    if h : a = b then isTrue (by rw [h])
    else isFalse (by intro hh; cases hh; exact h rfl)
  | .error a, .error b =>
    if h : a = b then isTrue (by rw [h])
    else isFalse (by intro hh; cases hh; exact h rfl)
  | .ok _, .error _ => isFalse (by intro hh; cases hh)
  | .error _, .ok _ => isFalse (by intro hh; cases hh)

/-- The body of `load_transactions` after reading the parquet: drop rows with a null
`CustomerID`, then add the `Revenue = Quantity * UnitPrice` column. -/
def load_transactions (rows : List Transaction) : List Transaction :=
  (rows.filter (fun t => t.customerId.isSome)).map
    (fun t => { t with revenue := t.quantity * t.unitPrice })

/-- Maximum of a list of integers (`Series.max` over a non-empty group);
the `[]` value is never used on a meaningful path. -/
def listMaxInt : List Int → Int
  | [] => 0
  | [x] => x
  | x :: y :: xs => max x (listMaxInt (y :: xs))

/-- The distinct non-null customer identifiers, in ascending order:
`df.groupby("CustomerID")` drops null keys and sorts the group keys. -/
def customersOf (rows : List Transaction) : List Int :=
  List.insertionSort (· ≤ ·) ((rows.filterMap (fun t => t.customerId)).dedup)

/-- The rows of one customer's group. -/
def rowsOf (rows : List Transaction) (c : Int) : List Transaction :=
  rows.filter (fun t => t.customerId = some c)

/-- One row of the aggregation
`df.groupby("CustomerID").agg({"InvoiceDate": λx. (snapshot - x.max()).days,
"InvoiceNo": "nunique", "Revenue": "sum"})`. -/
def aggRow (rows : List Transaction) (snapshot : Int) (c : Int) :
    CustomerMetrics :=
  let g := rowsOf rows c
  { customerId := c
    recency := snapshot - listMaxInt (g.map (fun t => t.invoiceDate))
    frequency := (g.map (fun t => t.invoiceNo)).dedup.length
    monetary := (g.map (fun t => t.revenue)).sum }

/-- Ordering of metric rows by the `Recency` column. -/
def recencyLE (a b : CustomerMetrics) : Prop := a.recency ≤ b.recency

instance : DecidableRel recencyLE := fun a b =>
  inferInstanceAs (Decidable (a.recency ≤ b.recency))

instance : IsTotal CustomerMetrics recencyLE :=
  ⟨fun a b => Int.le_total a.recency b.recency⟩

instance : IsTrans CustomerMetrics recencyLE :=
  ⟨fun _ _ _ h h2 => le_trans h h2⟩

/-- The aggregated table, one `CustomerMetrics` row per group key. -/
def metricsOf (rows : List Transaction) (snapshot : Int) :
    List CustomerMetrics :=
  (customersOf rows).map (aggRow rows snapshot)

/-- Body of `compute_rfm` once the snapshot instant is resolved: aggregate,
run the three assertions in source order, and return the table sorted by
ascending `Recency`. -/
def compute_rfm_at (rows : List Transaction) (snapshot : Int) :
    Except PyError (List CustomerMetrics) :=
  if (metricsOf rows snapshot).all (fun m => decide (0 ≤ m.recency)) then
    if (metricsOf rows snapshot).all (fun m => decide (0 < m.frequency)) then
      if (metricsOf rows snapshot).all (fun m => decide (0 < m.monetary)) then
        .ok (List.insertionSort recencyLE (metricsOf rows snapshot))
      else .error .monetaryNotPositive
    else .error .frequencyNotPositive
  else .error .negativeRecency

/-- The function `compute_rfm(df, snapshot_date)`.  With `snapshot_date=None`
the default is `df["InvoiceDate"].max() + pd.Timedelta(days=1)`.  On an
empty dataframe that maximum is `NaT`, `NaT + Timedelta(days=1)` is `NaT`,
and `pd.NaT.date()` returns `NaT` (it does not raise), so the function
still runs: the groupby yields an empty table, the three asserts are
vacuously true on it, and the result is an empty table.  The model's
stand-in snapshot value (`listMaxInt [] + 1`) for the empty case is
unobservable: with no rows there are no groups, so no recency is ever
computed from it. -/
def compute_rfm (rows : List Transaction) (snapshot? : Option Int) :
    Except PyError (List CustomerMetrics) :=
  match snapshot? with
  | some s => compute_rfm_at rows s
  | none => compute_rfm_at rows (listMaxInt (rows.map (fun t => t.invoiceDate)) + 1)

/-- The inner `assign_segment(row)` rule chain of `assign_segments`,
verbatim from the source. -/
def assign_segment (R F M : Int) : String :=
  if 4 ≤ R ∧ 4 ≤ F ∧ 4 ≤ M then "VIP"
  else if 4 ≤ F ∧ 3 ≤ M ∧ 2 ≤ R then "Loyal"
  else if 4 ≤ R ∧ F ≤ 2 ∧ M ≤ 2 then "Growth Potential"
  else if R ≤ 2 ∧ 3 ≤ F ∧ 2 ≤ M then "At Risk"
  else if R ≤ 1 then "Dormant"
  else "Mainstream"

/-- The closed set of segment labels. -/
def segmentLabels : List String :=
  ["VIP", "Loyal", "Growth Potential", "At Risk", "Dormant", "Mainstream"]

/-- The rule table exactly as the specification words it: predicates in
priority order 1–5 with their labels; rule 6 (`Mainstream`) is the default
of `specFirstMatch`.  This definition follows the spec's words and is
compared against `assign_segment`, which follows the source. -/
def segmentRules : List ((Int × Int × Int → Bool) × String) :=
  [ (fun p => decide (4 ≤ p.1) && decide (4 ≤ p.2.1) && decide (4 ≤ p.2.2), "VIP")
  , (fun p => decide (4 ≤ p.2.1) && decide (3 ≤ p.2.2) && decide (2 ≤ p.1), "Loyal")
  , (fun p => decide (4 ≤ p.1) && decide (p.2.1 ≤ 2) && decide (p.2.2 ≤ 2), "Growth Potential")
  , (fun p => decide (p.1 ≤ 2) && decide (3 ≤ p.2.1) && decide (2 ≤ p.2.2), "At Risk")
  , (fun p => decide (p.1 ≤ 1), "Dormant") ]

/-- First-match evaluation of the spec's rule table. -/
def specFirstMatch (R F M : Int) : String :=
  match segmentRules.find? (fun rule => rule.1 (R, F, M)) with
  | some rule => rule.2
  | none => "Mainstream"

/-- The function `assign_segments`: copy the scored table and add the `Segment` column
computed row-wise from the three scores. -/
def assign_segments (scored : List CustomerScore) : List CustomerSegment :=
  scored.map (fun s =>
    { toCustomerScore := s
      segment := assign_segment s.rScore (s.fScore : Int) (s.mScore : Int) })

/-- C6's concrete customer: two orders, 2011-12-01 (day 734472) with
revenue `2 × 10.0` and 2011-12-02 (day 734473) with revenue `3 × 15.0`. -/
def txnsC6 : List Transaction :=
  [ { invoiceNo := "INV001", invoiceDate := 734472, customerId := some 1001
      quantity := 2, unitPrice := 10, revenue := 20 }
  , { invoiceNo := "INV002", invoiceDate := 734473, customerId := some 1001
      quantity := 3, unitPrice := 15, revenue := 45 } ]

/-- C1: over the whole score domain `{1..5}³` the classifier returns one of
the six labels, that label is the one of the first rule (in the spec's
priority order) whose predicate holds, and the three named scenarios
`(5,5,5) ↦ VIP`, `(1,4,3) ↦ At Risk`, `(1,1,1) ↦ Dormant` hold. -/
theorem c1_segment_first_match :
    (∀ r ∈ Finset.Icc (1 : Int) 5, ∀ f ∈ Finset.Icc (1 : Int) 5,
      ∀ m ∈ Finset.Icc (1 : Int) 5,
        assign_segment r f m ∈ segmentLabels ∧
        assign_segment r f m = specFirstMatch r f m) ∧
    assign_segment 5 5 5 = "VIP" ∧
    assign_segment 1 4 3 = "At Risk" ∧
    assign_segment 1 1 1 = "Dormant" := by
  decide

/-- The metric column sorted ascending (`pandas` sorts the non-NaN values
before interpolating quantiles). -/
def sortQ (l : List ℚ) : List ℚ := List.insertionSort (· ≤ ·) l

/-- The value `Series.quantile(p)` with the default `linear` interpolation on the
sorted values `s`: with `h = p*(n-1)`, the result is
`s[⌊h⌋] + fract h * (s[⌊h⌋+1] - s[⌊h⌋])`.  (When `fract h = 0` the second
term vanishes, so the out-of-range default of `getD` is never material.) -/
def quantileAt (s : List ℚ) (p : ℚ) : ℚ :=
  let h : ℚ := p * ((s.length : ℚ) - 1)
  let lo := s.getD (Int.floor h).toNat 0
  let hi := s.getD ((Int.floor h).toNat + 1) lo
  lo + Int.fract h * (hi - lo)

/-- The `bins + 1` quantile bin edges `x.quantile(np.linspace(0, 1, bins+1))`
computed by `pd.qcut(x, q=bins)`. -/
def rawEdges (values : List ℚ) (bins : Nat) : List ℚ :=
  (List.range (bins + 1)).map
    (fun i : Nat => quantileAt (sortQ values) ((i : ℚ) / (bins : ℚ)))

/-- The edges after `duplicates="drop"`: pandas replaces the edges by their
sorted unique values, except when there are exactly 2 edges (the
`len(bins) != 2` guard in `_bins_to_cuts`), i.e. except for `bins = 1`. -/
def qcutEdges (values : List ℚ) (bins : Nat) : List ℚ :=
  if bins = 1 then rawEdges values bins else (rawEdges values bins).dedup

/-- The 0-based bin code `pd.qcut(..., labels=False)` assigns to an in-data
value `v`: `searchsorted(edges, v, side="left") - 1`, with the
`include_lowest` adjustment sending the minimum to code `0`.  For in-data
values both cases equal `pred (#edges strictly below v)`. -/
def qcutLabel (values : List ℚ) (bins : Nat) (v : ℚ) : Nat :=
  ((qcutEdges values bins).countP (fun e => decide (e < v))).pred

/-- Whether `pd.qcut` followed by `.astype(int)` succeeds on this column:
it fails (all codes `NaN`) exactly when the column is non-empty and the
deduplicated edges collapse to fewer than two values. -/
def qcutOk (values : List ℚ) (bins : Nat) : Bool :=
  values.isEmpty || decide (2 ≤ (qcutEdges values bins).length)

/-- Build one scored row from a metric row and its three bin codes. -/
def mkScore (bins : Nat) (m : CustomerMetrics) (rL fL mL : Nat) :
    CustomerScore :=
  { toCustomerMetrics := m
    rScore := (bins : Int) - (rL : Int)
    fScore := fL + 1
    mScore := mL + 1
    rfmScore := toString ((bins : Int) - (rL : Int)) ++ toString (fL + 1)
      ++ toString (mL + 1) }

/-- The function `score_rfm(rfm, bins)`: quantile-bin the three metric columns
(`Recency` inverted to `bins - code`, `Frequency`/`Monetary` shifted to
`code + 1`), appending the `RFM_Score` string.  Each `.astype(int)` raises
`ValueError` if its column's codes are `NaN` (total edge collapse); the
columns are processed in source order R, F, M. -/
def score_rfm (rfm : List CustomerMetrics) (bins : Nat) :
    Except PyError (List CustomerScore) :=
  let rv := rfm.map (fun m => (m.recency : ℚ))
  let fv := rfm.map (fun m => (m.frequency : ℚ))
  let mv := rfm.map (fun m => m.monetary)
  if qcutOk rv bins then
    if qcutOk fv bins then
      if qcutOk mv bins then
        .ok (rfm.map (fun m =>
          mkScore bins m (qcutLabel rv bins (m.recency : ℚ))
            (qcutLabel fv bins (m.frequency : ℚ))
            (qcutLabel mv bins m.monetary)))
      else .error .nanMScore
    else .error .nanFScore
  else .error .nanRScore

/-- The full `run()` pipeline on an in-memory table: load/clean, aggregate
with the default snapshot, score with the default `bins = 5`, segment. -/
def pipeline (rows : List Transaction) :
    Except PyError (List CustomerSegment) := do
  let rfm ← compute_rfm (load_transactions rows) none
  let scored ← score_rfm rfm 5
  pure (assign_segments scored)

/-- Three line items of one order `INV100` for customer 1001 on 2011-12-01:
the input of C5's "one order with 3 line items" scenario. -/
def txnsOneOrder : List Transaction :=
  [ { invoiceNo := "INV100", invoiceDate := 734472, customerId := some 1001
      quantity := 1, unitPrice := 2, revenue := 2 }
  , { invoiceNo := "INV100", invoiceDate := 734472, customerId := some 1001
      quantity := 2, unitPrice := 2, revenue := 4 }
  , { invoiceNo := "INV100", invoiceDate := 734472, customerId := some 1001
      quantity := 3, unitPrice := 2, revenue := 6 } ]

/-- The metric row `compute_rfm txnsOneOrder (some 734481)` produces. -/
def mOneOrder : CustomerMetrics :=
  { customerId := 1001, recency := 9, frequency := 1, monetary := 12 }

/-- Two customers (ids 7 and 9), one order each on consecutive days. -/
def txnsTwoCustomers : List Transaction :=
  [ { invoiceNo := "INV201", invoiceDate := 734472, customerId := some 7
      quantity := 1, unitPrice := 10, revenue := 10 }
  , { invoiceNo := "INV202", invoiceDate := 734473, customerId := some 9
      quantity := 2, unitPrice := 10, revenue := 20 } ]

/-- The output of `compute_rfm txnsTwoCustomers none`: default snapshot 734474, sorted by
ascending recency. -/
def outTwoCustomers : List CustomerMetrics :=
  [ { customerId := 9, recency := 1, frequency := 1, monetary := 20 }
  , { customerId := 7, recency := 2, frequency := 1, monetary := 10 } ]

/-- The first metric row of `outTwoCustomers`. -/
def mTwoCustomers : CustomerMetrics :=
  { customerId := 9, recency := 1, frequency := 1, monetary := 20 }

/-- A two-customer metric population with all three metrics distinct. -/
def popTwo : List CustomerMetrics :=
  [ { customerId := 1, recency := 1, frequency := 1, monetary := 10 }
  , { customerId := 2, recency := 2, frequency := 2, monetary := 20 } ]

/-- The scored row of `popTwo`'s first customer under `bins = 5`. -/
def scoreRow511 : CustomerScore :=
  { customerId := 1, recency := 1, frequency := 1, monetary := 10
    rScore := 5, fScore := 1, mScore := 1, rfmScore := "511" }

/-- The scored row of `popTwo`'s second customer under `bins = 5`. -/
def scoreRow155 : CustomerScore :=
  { customerId := 2, recency := 2, frequency := 2, monetary := 20
    rScore := 1, fScore := 5, mScore := 5, rfmScore := "155" }

/-- The output of `score_rfm popTwo 5`. -/
def scoredTwo : List CustomerScore := [scoreRow511, scoreRow155]

/-- A population whose `Frequency` column is constant: under the default
`bins = 5` every frequency quantile edge collapses to the single value `1`,
all codes are `NaN`, and `.astype(int)` raises. -/
def popConstFreq : List CustomerMetrics :=
  [ { customerId := 1, recency := 1, frequency := 1, monetary := 10 }
  , { customerId := 2, recency := 2, frequency := 1, monetary := 20 } ]

/-- One guest-only transaction row (null `CustomerID`). -/
def guestRows : List Transaction :=
  [ { invoiceNo := "INV300", invoiceDate := 734472, customerId := none
      quantity := 1, unitPrice := 5, revenue := 5 } ]

set_option maxRecDepth 4000

/-- C6: with snapshot 2011-12-10 (day 734481) the customer described in
`txnsC6` gets `Recency = 8`, `Frequency = 2`, `Monetary = 65.0`. -/
theorem c6_concrete_aggregation :
    compute_rfm txnsC6 (some 734481) =
      .ok [{ customerId := 1001, recency := 8, frequency := 2,
             monetary := 65 }] := by
  with_unfolding_all decide

/-! ### Basic facts about `listMaxInt` and the grouping -/

theorem le_listMaxInt {x : Int} : ∀ {l : List Int}, x ∈ l → x ≤ listMaxInt l
  | [], h => absurd h (List.not_mem_nil x)
  | [y], h => by
      rw [List.mem_singleton] at h
      subst h
      exact le_refl _
  | y :: z :: xs, h => by
      rcases List.mem_cons.mp h with h1 | h2
      · subst h1
        exact le_max_left _ _
      · exact le_trans (le_listMaxInt h2) (le_max_right _ _)

theorem listMaxInt_mem : ∀ {l : List Int}, l ≠ [] → listMaxInt l ∈ l
  | [], h => absurd rfl h
  | [y], _ => List.mem_singleton.mpr rfl
  | y :: z :: xs, _ => by
      show max y (listMaxInt (z :: xs)) ∈ y :: z :: xs
      rcases le_total y (listMaxInt (z :: xs)) with h | h
      · rw [max_eq_right h]
        exact List.mem_cons_of_mem _ (listMaxInt_mem (by simp))
      · rw [max_eq_left h]
        exact List.mem_cons_self _ _

theorem mem_customersOf {rows : List Transaction} {c : Int} :
    c ∈ customersOf rows ↔ ∃ t ∈ rows, t.customerId = some c := by
  unfold customersOf
  rw [List.mem_insertionSort, List.mem_dedup, List.mem_filterMap]

theorem nodup_customersOf (rows : List Transaction) :
    (customersOf rows).Nodup :=
  ((List.perm_insertionSort _ _).symm).nodup (List.nodup_dedup _)

theorem mem_rowsOf {rows : List Transaction} {t : Transaction} {c : Int} :
    t ∈ rowsOf rows c ↔ t ∈ rows ∧ t.customerId = some c := by
  unfold rowsOf
  rw [List.mem_filter]
  simp

theorem rowsOf_ne_nil {rows : List Transaction} {c : Int}
    (h : c ∈ customersOf rows) : rowsOf rows c ≠ [] := by
  rcases mem_customersOf.mp h with ⟨t, ht, he⟩
  exact List.ne_nil_of_mem (mem_rowsOf.mpr ⟨ht, he⟩)

theorem mem_metricsOf {rows : List Transaction} {s : Int}
    {m : CustomerMetrics} :
    m ∈ metricsOf rows s ↔
      m.customerId ∈ customersOf rows ∧ m = aggRow rows s m.customerId := by
  unfold metricsOf
  rw [List.mem_map]
  constructor
  · rintro ⟨c, hc, rfl⟩
    exact ⟨hc, rfl⟩
  · rintro ⟨hc, hm⟩
    exact ⟨m.customerId, hc, hm.symm⟩

theorem compute_rfm_at_ok_iff {rows : List Transaction} {s : Int}
    {out : List CustomerMetrics} :
    compute_rfm_at rows s = .ok out ↔
      (∀ m ∈ metricsOf rows s, 0 ≤ m.recency) ∧
      (∀ m ∈ metricsOf rows s, 0 < m.frequency) ∧
      (∀ m ∈ metricsOf rows s, 0 < m.monetary) ∧
      out = List.insertionSort recencyLE (metricsOf rows s) := by
  unfold compute_rfm_at
  constructor
  · intro h
    split_ifs at h with h1 h2 h3
    · simp only [List.all_eq_true, decide_eq_true_eq] at h1 h2 h3
      exact ⟨h1, h2, h3, ((Except.ok.injEq _ _).mp h).symm⟩
  · rintro ⟨h1, h2, h3, rfl⟩
    have b1 : (metricsOf rows s).all (fun m => decide (0 ≤ m.recency)) := by
      simp only [List.all_eq_true, decide_eq_true_eq]
      exact h1
    have b2 : (metricsOf rows s).all (fun m => decide (0 < m.frequency)) := by
      simp only [List.all_eq_true, decide_eq_true_eq]
      exact h2
    have b3 : (metricsOf rows s).all (fun m => decide (0 < m.monetary)) := by
      simp only [List.all_eq_true, decide_eq_true_eq]
      exact h3
    rw [if_pos b1, if_pos b2, if_pos b3]

theorem compute_rfm_ok_elim {rows : List Transaction} {snap? : Option Int}
    {out : List CustomerMetrics} (h : compute_rfm rows snap? = .ok out) :
    ∃ s, compute_rfm_at rows s = .ok out := by
  unfold compute_rfm at h
  cases snap? with
  | some s => exact ⟨s, h⟩
  | none => exact ⟨_, h⟩

theorem exists_negative_recency_iff {rows : List Transaction} {s : Int} :
    (∃ m ∈ metricsOf rows s, m.recency < 0) ↔
      ∃ t ∈ rows, t.customerId.isSome ∧ s < t.invoiceDate := by
  constructor
  · rintro ⟨m, hm, hneg⟩
    rcases mem_metricsOf.mp hm with ⟨hc, hagg⟩
    have hrec : m.recency =
        s - listMaxInt ((rowsOf rows m.customerId).map (fun t => t.invoiceDate)) := by
      conv_lhs => rw [hagg]
      rfl
    rw [hrec] at hneg
    have hlt : s < listMaxInt ((rowsOf rows m.customerId).map (fun t => t.invoiceDate)) := by
      omega
    have hne : (rowsOf rows m.customerId).map (fun t => t.invoiceDate) ≠ [] := by
      simpa using rowsOf_ne_nil hc
    rcases List.mem_map.mp (listMaxInt_mem hne) with ⟨t, htg, hdate⟩
    rcases mem_rowsOf.mp htg with ⟨htr, hcid⟩
    refine ⟨t, htr, by simp [hcid], ?_⟩
    rw [hdate]
    exact hlt
  · rintro ⟨t, htr, hsome, hlt⟩
    obtain ⟨c, hc⟩ := Option.isSome_iff_exists.mp hsome
    have hcmem : c ∈ customersOf rows := mem_customersOf.mpr ⟨t, htr, hc⟩
    refine ⟨aggRow rows s c, mem_metricsOf.mpr ⟨hcmem, rfl⟩, ?_⟩
    show s - listMaxInt ((rowsOf rows c).map (fun t => t.invoiceDate)) < 0
    have hle : t.invoiceDate ≤
        listMaxInt ((rowsOf rows c).map (fun t => t.invoiceDate)) :=
      le_listMaxInt (List.mem_map_of_mem _ (mem_rowsOf.mpr ⟨htr, hc⟩))
    omega

/-- C2: with a resolved snapshot instant, `compute_rfm` halts with the
negative-recency assertion (the spec's `InvalidSnapshotError`) exactly when
some attributed transaction's order timestamp is later than the snapshot,
i.e. exactly when some customer's maximum order timestamp exceeds it; when
no recency is negative, that error is never raised. -/
theorem c2_invalid_snapshot_iff (rows : List Transaction) (s : Int) :
    compute_rfm rows (some s) = .error .negativeRecency ↔
      ∃ t ∈ rows, t.customerId.isSome ∧ s < t.invoiceDate := by
  rw [← @exists_negative_recency_iff rows s]
  show compute_rfm_at rows s = _ ↔ _
  unfold compute_rfm_at
  by_cases h1 : (metricsOf rows s).all (fun m => decide (0 ≤ m.recency))
  · rw [if_pos h1]
    simp only [List.all_eq_true, decide_eq_true_eq] at h1
    constructor
    · intro h
      split_ifs at h <;> simp at h
    · rintro ⟨m, hm, hneg⟩
      exact absurd (h1 m hm) (by omega)
  · rw [if_neg h1]
    simp only [List.all_eq_true, decide_eq_true_eq] at h1
    push_neg at h1
    constructor
    · intro _
      rcases h1 with ⟨m, hm, hlt⟩
      exact ⟨m, hm, hlt⟩
    · intro _
      rfl

/-- C5: in every successful `compute_rfm` run, each output row's
`Frequency` is the number of distinct order identifiers among that
customer's rows — not the number of line items. -/
theorem c5_frequency_counts_distinct_invoices (rows : List Transaction)
    (snap? : Option Int) (out : List CustomerMetrics)
    (h : compute_rfm rows snap? = .ok out) :
    ∀ m ∈ out, m.frequency =
      ((rowsOf rows m.customerId).map (fun t => t.invoiceNo)).toFinset.card := by
  obtain ⟨s, hs⟩ := compute_rfm_ok_elim h
  obtain ⟨-, -, -, rfl⟩ := compute_rfm_at_ok_iff.mp hs
  intro m hm
  rw [List.mem_insertionSort] at hm
  unfold metricsOf at hm
  obtain ⟨c, hc, rfl⟩ := List.mem_map.mp hm
  rw [List.card_toFinset]
  rfl

/-- C5 witness: the concrete one-order three-line-item customer of
`txnsOneOrder` gets `Frequency = 1`. -/
theorem c5_frequency_counts_distinct_invoices_witness :
    (mOneOrder.frequency =
      ((rowsOf txnsOneOrder mOneOrder.customerId).map
        (fun t => t.invoiceNo)).toFinset.card) ∧
    mOneOrder.frequency = 1 :=
  ⟨c5_frequency_counts_distinct_invoices txnsOneOrder (some 734481)
      [mOneOrder] (by with_unfolding_all decide) mOneOrder
      (by with_unfolding_all decide),
   rfl⟩

/-- C7 (amended): when filtering leaves no attributed transaction (in
particular on a completely empty input), the pipeline yields a clearly
empty result: the default snapshot resolves to `NaT` without raising
(`pd.NaT.date()` returns `NaT`), the aggregation and its asserts are
vacuous on the empty table, quantile binning runs on the empty columns
without error, and the final segmented table is empty. -/
theorem c7_empty_input_yields_empty (rows : List Transaction)
    (h : rows.filter (fun t => t.customerId.isSome) = []) :
    pipeline rows = .ok [] := by
  have hl : load_transactions rows = [] := by
    unfold load_transactions
    rw [h]
    rfl
  unfold pipeline
  rw [hl]
  rfl

/-- C7 counterexample to the claim as stated: on a guest-only input the
pipeline returns successfully with an empty table, and the quantile scorer
itself completes on the empty population without raising — so the pipeline
does silently proceed through quantile binning on the empty population,
against the claim's rider that it must not do so without a clear error. -/
theorem c7_silent_empty_binning_no_error :
    pipeline guestRows = Except.ok [] ∧
    score_rfm [] 5 = Except.ok [] := by
  constructor
  · with_unfolding_all decide
  · rfl

/-- C7 witness: a non-empty input consisting only of guest purchases
yields the clearly empty result. -/
theorem c7_empty_input_yields_empty_witness :
    pipeline guestRows = Except.ok [] :=
  c7_empty_input_yields_empty guestRows (by with_unfolding_all decide)

/-- C8: when the snapshot argument is absent, every produced row's
`Recency` equals (global max order day + 1) - (that customer's max order
day) — the "one day after the maximum order timestamp" default — hence is
at least 1; and the output holds exactly one row per distinct (non-null)
customer identifier of the input. -/
theorem c8_default_snapshot (rows : List Transaction)
    (out : List CustomerMetrics) (h : compute_rfm rows none = .ok out) :
    (∀ m ∈ out,
        m.recency = listMaxInt (rows.map (fun t => t.invoiceDate)) + 1 -
            listMaxInt ((rowsOf rows m.customerId).map (fun t => t.invoiceDate)) ∧
        1 ≤ m.recency) ∧
    (out.map (fun m => m.customerId)).Nodup ∧
    (∀ c : Int, c ∈ out.map (fun m => m.customerId) ↔
        ∃ t ∈ rows, t.customerId = some c) := by
  unfold compute_rfm at h
  obtain ⟨-, -, -, rfl⟩ := compute_rfm_at_ok_iff.mp h
  have hperm :
      List.Perm
        (List.insertionSort recencyLE
          (metricsOf rows (listMaxInt (rows.map (fun t => t.invoiceDate)) + 1)))
        (metricsOf rows (listMaxInt (rows.map (fun t => t.invoiceDate)) + 1)) :=
    List.perm_insertionSort _ _
  have hmapid :
      (metricsOf rows (listMaxInt (rows.map (fun t => t.invoiceDate)) + 1)).map
          (fun m => m.customerId) = customersOf rows := by
    unfold metricsOf
    rw [List.map_map]
    have hid : ((fun m : CustomerMetrics => m.customerId) ∘
        aggRow rows (listMaxInt (rows.map (fun t => t.invoiceDate)) + 1)) = id := rfl
    rw [hid, List.map_id]
  refine ⟨?_, ?_, ?_⟩
  · intro m hm
    rw [List.mem_insertionSort] at hm
    unfold metricsOf at hm
    obtain ⟨c, hc, rfl⟩ := List.mem_map.mp hm
    constructor
    · rfl
    · show 1 ≤ (aggRow rows (listMaxInt (rows.map (fun t => t.invoiceDate)) + 1) c).recency
      have hne : (rowsOf rows c).map (fun t => t.invoiceDate) ≠ [] := by
        simpa using rowsOf_ne_nil hc
      rcases List.mem_map.mp (listMaxInt_mem hne) with ⟨t, htg, hdate⟩
      have hle : t.invoiceDate ≤ listMaxInt (rows.map (fun t => t.invoiceDate)) :=
        le_listMaxInt (List.mem_map_of_mem _ (mem_rowsOf.mp htg).1)
      show 1 ≤ listMaxInt (rows.map (fun t => t.invoiceDate)) + 1 -
          listMaxInt ((rowsOf rows c).map (fun t => t.invoiceDate))
      omega
  · have := (hperm.map (fun m => m.customerId)).symm.nodup
    rw [hmapid] at this
    exact this (nodup_customersOf rows)
  · intro c
    rw [(hperm.map (fun m => m.customerId)).mem_iff, hmapid]
    exact mem_customersOf

/-- C8 witness: two customers, default snapshot day 734474. -/
theorem c8_default_snapshot_witness :
    (mTwoCustomers.recency =
        listMaxInt (txnsTwoCustomers.map (fun t => t.invoiceDate)) + 1 -
          listMaxInt ((rowsOf txnsTwoCustomers mTwoCustomers.customerId).map
            (fun t => t.invoiceDate)) ∧
      1 ≤ mTwoCustomers.recency) ∧
    (outTwoCustomers.map (fun m => m.customerId)).Nodup ∧
    (9 ∈ outTwoCustomers.map (fun m => m.customerId) ↔
      ∃ t ∈ txnsTwoCustomers, t.customerId = some 9) := by
  have h := c8_default_snapshot txnsTwoCustomers outTwoCustomers
    (by with_unfolding_all decide)
  exact ⟨h.1 mTwoCustomers (by with_unfolding_all decide), h.2.1, h.2.2 9⟩

/-- C9: every successful `compute_rfm` output is sorted by ascending
`Recency` (most recent customers first). -/
theorem c9_output_sorted_by_recency (rows : List Transaction)
    (snap? : Option Int) (out : List CustomerMetrics)
    (h : compute_rfm rows snap? = .ok out) :
    (out.map (fun m => m.recency)).Sorted (· ≤ ·) := by
  obtain ⟨s, hs⟩ := compute_rfm_ok_elim h
  obtain ⟨-, -, -, rfl⟩ := compute_rfm_at_ok_iff.mp hs
  have hsorted := List.sorted_insertionSort recencyLE (metricsOf rows s)
  rw [List.Sorted, List.pairwise_map]
  exact hsorted

/-- C9 witness: the two-customer default-snapshot run is sorted. -/
theorem c9_output_sorted_by_recency_witness :
    (outTwoCustomers.map (fun m => m.recency)).Sorted (· ≤ ·) :=
  c9_output_sorted_by_recency txnsTwoCustomers none outTwoCustomers
    (by with_unfolding_all decide)

/-! ### Facts about `score_rfm` and the qcut model -/

theorem score_rfm_ok_elim {rfm : List CustomerMetrics} {bins : Nat}
    {scored : List CustomerScore} (h : score_rfm rfm bins = .ok scored) :
    scored = rfm.map (fun m =>
      mkScore bins m
        (qcutLabel (rfm.map (fun m2 => (m2.recency : ℚ))) bins (m.recency : ℚ))
        (qcutLabel (rfm.map (fun m2 => (m2.frequency : ℚ))) bins (m.frequency : ℚ))
        (qcutLabel (rfm.map (fun m2 => m2.monetary)) bins m.monetary)) ∧
    qcutOk (rfm.map (fun m2 => (m2.recency : ℚ))) bins = true ∧
    qcutOk (rfm.map (fun m2 => (m2.frequency : ℚ))) bins = true ∧
    qcutOk (rfm.map (fun m2 => m2.monetary)) bins = true := by
  simp only [score_rfm] at h
  split_ifs at h with h1 h2 h3
  exact ⟨((Except.ok.injEq _ _).mp h).symm, h1, h2, h3⟩

/-- C10: the scorer and the segment classifier only add columns: stripping
the added score columns from a successful `score_rfm` output gives back the
input table unchanged, and stripping the `Segment` column from
`assign_segments`' output gives back its input unchanged. -/
theorem c10_inputs_not_mutated (rfm : List CustomerMetrics) (bins : Nat)
    (scored : List CustomerScore) (h : score_rfm rfm bins = .ok scored) :
    scored.map (fun s => s.toCustomerMetrics) = rfm ∧
    (assign_segments scored).map (fun s => s.toCustomerScore) = scored := by
  constructor
  · obtain ⟨rfl, -, -, -⟩ := score_rfm_ok_elim h
    rw [List.map_map]
    exact List.map_id rfm
  · unfold assign_segments
    rw [List.map_map]
    exact List.map_id scored

/-- C10 witness: the concrete two-customer run. -/
theorem c10_inputs_not_mutated_witness :
    scoredTwo.map (fun s => s.toCustomerMetrics) = popTwo ∧
    (assign_segments scoredTwo).map (fun s => s.toCustomerScore) = scoredTwo :=
  c10_inputs_not_mutated popTwo 5 scoredTwo (by with_unfolding_all decide)

theorem quantile_index_lt {s : List ℚ} {p : ℚ} (hs : s ≠ []) (hp0 : 0 ≤ p)
    (hp1 : p ≤ 1) :
    (Int.floor (p * ((s.length : ℚ) - 1))).toNat < s.length := by
  have hlen : 1 ≤ s.length := List.length_pos.mpr hs
  have hsub : (0:ℚ) ≤ (s.length : ℚ) - 1 := by
    have h1 : (1:ℚ) ≤ (s.length : ℚ) := by exact_mod_cast hlen
    linarith
  have hh0 : (0:ℚ) ≤ p * ((s.length : ℚ) - 1) := mul_nonneg hp0 hsub
  have hcast : ((s.length : ℚ) - 1) = (((s.length : ℤ) - 1 : ℤ) : ℚ) := by
    push_cast
    ring
  have hfl : Int.floor (p * ((s.length : ℚ) - 1)) ≤ (s.length : ℤ) - 1 := by
    calc Int.floor (p * ((s.length : ℚ) - 1))
        ≤ Int.floor ((s.length : ℚ) - 1) :=
          Int.floor_le_floor (mul_le_of_le_one_left hsub hp1)
      _ = (s.length : ℤ) - 1 := by rw [hcast, Int.floor_intCast]
  have hfl0 : 0 ≤ Int.floor (p * ((s.length : ℚ) - 1)) := Int.floor_nonneg.mpr hh0
  omega

theorem le_quantileAt {values : List ℚ} {v p : ℚ} (hv : v ∈ values)
    (hmin : ∀ x ∈ values, v ≤ x) (hp0 : 0 ≤ p) (hp1 : p ≤ 1) :
    v ≤ quantileAt (sortQ values) p := by
  have hvs : v ∈ sortQ values := (List.mem_insertionSort _).mpr hv
  have hsne : sortQ values ≠ [] := List.ne_nil_of_mem hvs
  have hsorted : (sortQ values).Sorted (· ≤ ·) := List.sorted_insertionSort _ _
  have hminS : ∀ x ∈ sortQ values, v ≤ x := fun x hx =>
    hmin x ((List.mem_insertionSort _).mp hx)
  have hidx := quantile_index_lt hsne hp0 hp1
  set s := sortQ values with hsdef
  simp only [quantileAt]
  set i := (Int.floor (p * ((s.length : ℚ) - 1))).toNat with hidef
  have hlo_eq : s.getD i 0 = s.get ⟨i, hidx⟩ := by
    simp [List.getD_eq_getElem?_getD, List.getElem?_eq_getElem hidx]
  have hvlo : v ≤ s.getD i 0 := by
    rw [hlo_eq]
    exact hminS _ (List.get_mem s i hidx)
  have hlo_hi : s.getD i 0 ≤ s.getD (i + 1) (s.getD i 0) := by
    by_cases hi1 : i + 1 < s.length
    · have h2 : s.getD (i + 1) (s.getD i 0) = s.get ⟨i + 1, hi1⟩ := by
        simp [List.getD_eq_getElem?_getD, List.getElem?_eq_getElem hi1]
      rw [h2, hlo_eq]
      exact hsorted.rel_get_of_le (by simp [Fin.le_def])
    · have hd : s.getD (i + 1) (s.getD i 0) = s.getD i 0 :=
        List.getD_eq_default _ _ (by omega)
      rw [hd]
  have hfr : 0 ≤ Int.fract (p * ((s.length : ℚ) - 1)) := Int.fract_nonneg _
  have hprod : 0 ≤ Int.fract (p * ((s.length : ℚ) - 1)) *
      (s.getD (i + 1) (s.getD i 0) - s.getD i 0) :=
    mul_nonneg hfr (by linarith)
  linarith

theorem quantileAt_one {s : List ℚ} (hs : s ≠ []) :
    quantileAt s 1 = s.getD (s.length - 1) 0 := by
  have hlen : 1 ≤ s.length := List.length_pos.mpr hs
  have hcast : (1:ℚ) * ((s.length : ℚ) - 1) = (((s.length : ℤ) - 1 : ℤ) : ℚ) := by
    push_cast
    ring
  simp only [quantileAt]
  rw [hcast, Int.floor_intCast, Int.fract_intCast, zero_mul, add_zero]
  congr 1
  omega

theorem le_quantile_one {values : List ℚ} {v : ℚ} (hv : v ∈ values) :
    v ≤ quantileAt (sortQ values) 1 := by
  have hvs : v ∈ sortQ values := (List.mem_insertionSort _).mpr hv
  have hsne : sortQ values ≠ [] := List.ne_nil_of_mem hvs
  have hsorted : (sortQ values).Sorted (· ≤ ·) := List.sorted_insertionSort _ _
  rw [quantileAt_one hsne]
  obtain ⟨j, hj⟩ := List.mem_iff_get.mp hvs
  have hlen : 1 ≤ (sortQ values).length := List.length_pos.mpr hsne
  have hlt : (sortQ values).length - 1 < (sortQ values).length := by omega
  have hgd : (sortQ values).getD ((sortQ values).length - 1) 0 =
      (sortQ values).get ⟨(sortQ values).length - 1, hlt⟩ := by
    simp [List.getD_eq_getElem?_getD, List.getElem?_eq_getElem hlt]
  rw [hgd, ← hj]
  apply hsorted.rel_get_of_le
  have hjlt := j.isLt
  simp only [Fin.le_def]
  omega

theorem rawEdges_length (values : List ℚ) (bins : Nat) :
    (rawEdges values bins).length = bins + 1 := by
  unfold rawEdges
  rw [List.length_map, List.length_range]

theorem qcutEdges_length_le (values : List ℚ) (bins : Nat) :
    (qcutEdges values bins).length ≤ bins + 1 := by
  unfold qcutEdges
  split
  · rw [rawEdges_length]
  · exact le_trans (List.Sublist.length_le (List.dedup_sublist _))
      (le_of_eq (rawEdges_length _ _))

theorem mem_qcutEdges_of_mem {values : List ℚ} {bins : Nat} {x : ℚ}
    (h : x ∈ rawEdges values bins) : x ∈ qcutEdges values bins := by
  unfold qcutEdges
  split
  · exact h
  · exact List.mem_dedup.mpr h

theorem mem_of_mem_qcutEdges {values : List ℚ} {bins : Nat} {x : ℚ}
    (h : x ∈ qcutEdges values bins) : x ∈ rawEdges values bins := by
  unfold qcutEdges at h
  split at h
  · exact h
  · exact List.mem_dedup.mp h

theorem quantile_one_mem_rawEdges {values : List ℚ} {bins : Nat}
    (hb : 1 ≤ bins) : quantileAt (sortQ values) 1 ∈ rawEdges values bins := by
  unfold rawEdges
  refine List.mem_map.mpr ⟨bins, List.mem_range.mpr (by omega), ?_⟩
  congr 1
  exact div_self (Nat.cast_ne_zero.mpr (by omega))

theorem edge_p_bounds {bins : Nat} {i : Nat} (h : i ∈ List.range (bins + 1)) :
    0 ≤ (i : ℚ) / (bins : ℚ) ∧ (i : ℚ) / (bins : ℚ) ≤ 1 := by
  refine ⟨div_nonneg (Nat.cast_nonneg i) (Nat.cast_nonneg bins), ?_⟩
  rcases Nat.eq_zero_or_pos bins with hb | hb
  · subst hb
    norm_num
  · rw [div_le_one (by exact_mod_cast hb)]
    exact_mod_cast Nat.lt_succ_iff.mp (List.mem_range.mp h)

theorem qcutOk_elim {values : List ℚ} {bins : Nat}
    (h : qcutOk values bins = true) (hne : values ≠ []) :
    1 ≤ bins ∧ 2 ≤ (qcutEdges values bins).length := by
  unfold qcutOk at h
  rw [Bool.or_eq_true] at h
  rcases h with h | h
  · exact absurd (List.isEmpty_iff.mp h) hne
  · simp only [decide_eq_true_eq] at h
    have hle := qcutEdges_length_le values bins
    exact ⟨by omega, h⟩

theorem qcutLabel_succ_le {values : List ℚ} {bins : Nat} {v : ℚ}
    (hok : qcutOk values bins = true) (hv : v ∈ values) :
    qcutLabel values bins v + 1 ≤ bins := by
  have hne : values ≠ [] := List.ne_nil_of_mem hv
  obtain ⟨hb, h2⟩ := qcutOk_elim hok hne
  have hmax_mem : quantileAt (sortQ values) 1 ∈ qcutEdges values bins :=
    mem_qcutEdges_of_mem (quantile_one_mem_rawEdges hb)
  have hvmax : v ≤ quantileAt (sortQ values) 1 := le_quantile_one hv
  have hcnt_le : (qcutEdges values bins).countP (fun e => decide (e < v)) ≤
      (qcutEdges values bins).length := List.countP_le_length _
  have hcnt_ne : (qcutEdges values bins).countP (fun e => decide (e < v)) ≠
      (qcutEdges values bins).length := by
    intro heq
    have hall := List.countP_eq_length.mp heq _ hmax_mem
    rw [decide_eq_true_eq] at hall
    exact absurd hall (not_lt.mpr hvmax)
  have hlen := qcutEdges_length_le values bins
  unfold qcutLabel
  rw [Nat.pred_eq_sub_one]
  omega

theorem qcutLabel_min_eq_zero {values : List ℚ} {bins : Nat} {v : ℚ}
    (hv : v ∈ values) (hmin : ∀ x ∈ values, v ≤ x) :
    qcutLabel values bins v = 0 := by
  unfold qcutLabel
  have hcnt : (qcutEdges values bins).countP (fun e => decide (e < v)) = 0 := by
    rw [List.countP_eq_zero]
    intro e he
    simp only [decide_eq_true_eq, not_lt]
    have hraw := mem_of_mem_qcutEdges he
    unfold rawEdges at hraw
    obtain ⟨i, hi, rfl⟩ := List.mem_map.mp hraw
    obtain ⟨h0, h1⟩ := edge_p_bounds hi
    exact le_quantileAt hv hmin h0 h1
  rw [hcnt]
  rfl

theorem qcutLabel_mono {values : List ℚ} {bins : Nat} {v w : ℚ} (hvw : v ≤ w) :
    qcutLabel values bins v ≤ qcutLabel values bins w := by
  unfold qcutLabel
  apply Nat.pred_le_pred
  apply List.countP_mono_left
  intro e _ hev
  rw [decide_eq_true_eq] at hev ⊢
  exact lt_of_lt_of_le hev hvw

/-- C3 (amended): whenever `score_rfm` returns a table, every customer's
three scores lie in `[1, bins]` — including runs where duplicate metric
values collapsed some quantile boundaries. -/
theorem c3_scores_within_bins (rfm : List CustomerMetrics) (bins : Nat)
    (scored : List CustomerScore) (h : score_rfm rfm bins = .ok scored) :
    ∀ s ∈ scored,
      (1 ≤ s.rScore ∧ s.rScore ≤ (bins : Int)) ∧
      (1 ≤ s.fScore ∧ s.fScore ≤ bins) ∧
      (1 ≤ s.mScore ∧ s.mScore ≤ bins) := by
  obtain ⟨rfl, hr, hf, hm⟩ := score_rfm_ok_elim h
  intro s hs
  obtain ⟨m, hmem, rfl⟩ := List.mem_map.mp hs
  have hrL := qcutLabel_succ_le hr
    (List.mem_map_of_mem (fun m2 => ((m2.recency : ℚ))) hmem)
  have hfL := qcutLabel_succ_le hf
    (List.mem_map_of_mem (fun m2 => ((m2.frequency : ℚ))) hmem)
  have hmL := qcutLabel_succ_le hm
    (List.mem_map_of_mem (fun m2 => m2.monetary) hmem)
  dsimp only [mkScore]
  omega

/-- C3 counterexample to the claim as stated: on a population whose
`Frequency` values are all identical (with the default `bins = 5`),
`score_rfm` raises instead of assigning scores — the claim's
"for every CustomerMetrics population" fails. -/
theorem c3_total_collapse_errors :
    score_rfm popConstFreq 5 = Except.error PyError.nanFScore := by
  with_unfolding_all decide

/-- C3 witness: both customers of the two-customer run get all three
scores inside `[1, 5]`. -/
theorem c3_scores_within_bins_witness :
    (1 ≤ scoreRow511.rScore ∧ scoreRow511.rScore ≤ ((5 : Nat) : Int)) ∧
    (1 ≤ scoreRow511.fScore ∧ scoreRow511.fScore ≤ 5) ∧
    (1 ≤ scoreRow511.mScore ∧ scoreRow511.mScore ≤ 5) :=
  c3_scores_within_bins popTwo 5 scoredTwo (by with_unfolding_all decide)
    scoreRow511 (by with_unfolding_all decide)

/-- C4: in a successful scoring run, `R_Score` is antitone in `Recency`
(the customer with the smaller Recency gets the weakly greater `R_Score`),
and a customer whose Recency is minimal in the run gets `R_Score = bins`. -/
theorem c4_recency_inversion (rfm : List CustomerMetrics) (bins : Nat)
    (scored : List CustomerScore) (h : score_rfm rfm bins = .ok scored) :
    (∀ s ∈ scored, ∀ t ∈ scored,
        s.recency ≤ t.recency → t.rScore ≤ s.rScore) ∧
    (∀ s ∈ scored, (∀ t ∈ scored, s.recency ≤ t.recency) →
        s.rScore = (bins : Int)) := by
  obtain ⟨rfl, hr, -, -⟩ := score_rfm_ok_elim h
  constructor
  · intro s hs t ht hrec
    obtain ⟨m, hmem, rfl⟩ := List.mem_map.mp hs
    obtain ⟨m2, hmem2, rfl⟩ := List.mem_map.mp ht
    dsimp only [mkScore] at hrec ⊢
    have hcast : (m.recency : ℚ) ≤ (m2.recency : ℚ) := by exact_mod_cast hrec
    have hmono := @qcutLabel_mono (rfm.map (fun m2 => ((m2.recency : ℚ))))
      bins _ _ hcast
    omega
  · intro s hs hminAll
    obtain ⟨m, hmem, rfl⟩ := List.mem_map.mp hs
    have hminQ : ∀ x ∈ rfm.map (fun m2 => ((m2.recency : ℚ))),
        ((m.recency : ℚ)) ≤ x := by
      intro x hx
      obtain ⟨m2, hm2, rfl⟩ := List.mem_map.mp hx
      have hle := hminAll _ (List.mem_map_of_mem _ hm2)
      dsimp only [mkScore] at hle
      exact_mod_cast hle
    have h0 : qcutLabel (rfm.map (fun m2 => ((m2.recency : ℚ)))) bins
        ((m.recency : ℚ)) = 0 := qcutLabel_min_eq_zero
      (List.mem_map_of_mem (fun m2 => ((m2.recency : ℚ))) hmem) hminQ
    dsimp only [mkScore]
    omega

/-- C4 witness: in the two-customer run, the customer with the smaller
Recency (1 vs 2) gets the weakly greater `R_Score`, and, being minimal,
gets `R_Score = 5`. -/
theorem c4_recency_inversion_witness :
    scoreRow155.rScore ≤ scoreRow511.rScore ∧
    scoreRow511.rScore = ((5 : Nat) : Int) :=
  ⟨(c4_recency_inversion popTwo 5 scoredTwo (by with_unfolding_all decide)).1
      scoreRow511 (by with_unfolding_all decide)
      scoreRow155 (by with_unfolding_all decide)
      (by with_unfolding_all decide),
   (c4_recency_inversion popTwo 5 scoredTwo (by with_unfolding_all decide)).2
      scoreRow511 (by with_unfolding_all decide)
      (by with_unfolding_all decide)⟩

/-- C1 witness: the `(5,5,5)` scenario instantiates the general statement. -/
theorem c1_segment_first_match_witness :
    assign_segment 5 5 5 ∈ segmentLabels ∧
    assign_segment 5 5 5 = specFirstMatch 5 5 5 :=
  c1_segment_first_match.1 5 (by decide) 5 (by decide) 5 (by decide)
